import Mathlib

/-!
# Verification of the Lagos Tertiary Institution Directory

A shallow embedding of `src/lagos_institutions_directory.py` together with
proofs about its ranking, filtering, sorting and reporting operations.

Modelling conventions:
* Python `float` fields are modelled as `ℚ` (the program only ever performs
  exact field arithmetic on them: `+`, `*`, `/` by constants, `min`, `max`).
* Python `int` is modelled as `ℤ`.
* Python `str` is modelled as `String`; the string operations the program
  uses (`lower`, `strip`, `in`-substring test, `<` comparison, `title`)
  are implemented over the underlying character list so that they compute
  by kernel reduction.
* Python's `sorted(xs, key=k, reverse=d)` is the unique stable sort for the
  induced total preorder; it is modelled by a stable insertion sort.
-/

namespace LagosDirectory

/-! ## Python string primitives -/

/-- Characterwise lower-casing, modelling Python `str.lower` (ASCII range,
which covers every string the program compares). -/
def pyLowerChars (l : List Char) : List Char := l.map Char.toLower

/-- `str.lower` on `String`. -/
def pyLower (s : String) : String := ⟨pyLowerChars s.data⟩

/-- Drop leading and trailing whitespace, modelling Python `str.strip()`. -/
def pyStripChars (l : List Char) : List Char :=
  ((l.dropWhile Char.isWhitespace).reverse.dropWhile Char.isWhitespace).reverse

/-- `str.strip()` on `String`. -/
def pyStrip (s : String) : String := ⟨pyStripChars s.data⟩

/-- `needle` occurs at the start of `haystack`. -/
def prefixChars : List Char → List Char → Bool
  | [], _ => true
  | _ :: _, [] => false
  | a :: as, b :: bs => a == b && prefixChars as bs

/-- Substring occurrence over character lists: Python's `needle in haystack`. -/
def inChars (needle : List Char) : List Char → Bool
  | [] => needle.isEmpty
  | b :: bs => prefixChars needle (b :: bs) || inChars needle bs

/-- Python's `kw in s` substring test on `String`. -/
def pyIn (needle haystack : String) : Bool := inChars needle.data haystack.data

/-- Code-point lexicographic `<` over character lists: Python string `<`. -/
def ltChars : List Char → List Char → Bool
  | _, [] => false
  | [], _ :: _ => true
  | a :: as, b :: bs => if a < b then true else if b < a then false else ltChars as bs

/-- Python string `<` on `String`. -/
def pyLt (a b : String) : Bool := ltChars a.data b.data

/-- Python `str.title()`: upper-case each letter that follows a non-letter,
lower-case the other letters. The flag records whether the previous
character was a letter. -/
def titleAux : Bool → List Char → List Char
  | _, [] => []
  | prev, c :: cs =>
    (if c.isAlpha then (if prev then c.toLower else c.toUpper) else c) :: titleAux c.isAlpha cs

/-- `str.title()` on `String`. -/
def pyTitle (s : String) : String := ⟨titleAux false s.data⟩

/-! ## Numeric rendering

These model the `printf`-style format specifiers used by `line` and
`summarize` (`:.0f`, `:,.0f`, `:,`, `:.3f`, `:>2`). Fixed-point rounding is
modelled by `round` on `ℚ`. -/

/-- Insert a thousands separator after each group of three digits, walking a
reversed digit list. -/
def grpAux : ℕ → List Char → List Char
  | _, [] => []
  | n, c :: cs => if n = 3 then ',' :: c :: grpAux 1 cs else c :: grpAux (n + 1) cs

/-- Decimal digits of `n` with thousands separators. -/
def fmtGrouped (n : ℕ) : String := ⟨(grpAux 0 (toString n).data.reverse).reverse⟩

/-- Format spec `:.0f`: round to the nearest integer. -/
def fmtFixed0 (q : ℚ) : String := toString (round q)

/-- Format spec `:,.0f`: round to the nearest integer, thousands separators. -/
def fmtComma0 (q : ℚ) : String :=
  let n := round q
  (if n < 0 then "-" else "") ++ fmtGrouped n.natAbs

/-- Format spec `:,` on an integer: thousands separators. -/
def fmtCommaInt (n : ℤ) : String :=
  (if n < 0 then "-" else "") ++ fmtGrouped n.natAbs

/-- Left-pad a sub-thousand numeral to three digits. -/
def pad3 (k : ℕ) : String :=
  if k < 10 then "00" ++ toString k else if k < 100 then "0" ++ toString k else toString k

/-- Format spec `:.3f`: three digits after the decimal point. -/
def fmtFixed3 (q : ℚ) : String :=
  let n := round (q * 1000)
  (if n < 0 then "-" else "") ++ toString (n.natAbs / 1000) ++ "." ++ pad3 (n.natAbs % 1000)

/-- Format spec `:>2` on the 1-based index of `summarize`. -/
def padIndex2 (k : ℕ) : String :=
  if k < 10 then " " ++ toString k else toString k

/-! ## Institution model

The source declares an abstract dataclass `BaseInstitution` with three
concrete subclasses `University`, `Polytechnic`, `CollegeOfEducation`.
Per the class hierarchy, the only per-subclass behaviour is the `category`
label and the `base_rank_weights` triple, so the hierarchy is embedded as a
`Category` tag carried by the record (the spec itself suggests exactly this
tagged-variant encoding). -/

/-- The three concrete subclasses of `BaseInstitution`. -/
inductive Category where
  | university
  | polytechnic
  | college
deriving DecidableEq, Repr

/-- The `category` property of each subclass
(`"university"` / `"polytechnic"` / `"college"`). -/
def category_label : Category → String
  | .university => "university"
  | .polytechnic => "polytechnic"
  | .college => "college"

/-- `base_rank_weights` of each subclass: the `(w_acc, w_aff, w_size)`
triple returned by `University`, `Polytechnic`, `CollegeOfEducation`. -/
def base_rank_weights : Category → ℚ × ℚ × ℚ
  | .university => (0.60, 0.20, 0.20)
  | .polytechnic => (0.45, 0.35, 0.20)
  | .college => (0.50, 0.40, 0.10)

/-- The dataclass fields of `BaseInstitution`, plus the subclass tag. -/
structure BaseInstitution where
  _name : String
  _ownership : String
  _lga : String
  _courses : List String
  _tuition_avg : ℚ
  _accreditation_score : ℚ
  _student_population : ℤ
  category : Category
deriving DecidableEq, Repr

namespace BaseInstitution

/-- Property `name`. -/
def name (i : BaseInstitution) : String := i._name

/-- Property `ownership` (returns `self._ownership.lower()`). -/
def ownership (i : BaseInstitution) : String := pyLower i._ownership

/-- Property `lga`. -/
def lga (i : BaseInstitution) : String := i._lga

/-- Property `courses` (returns a copy of the list; same list value). -/
def courses (i : BaseInstitution) : List String := i._courses

/-- Property `tuition_avg` (`float(self._tuition_avg)` is the identity here). -/
def tuition_avg (i : BaseInstitution) : ℚ := i._tuition_avg

/-- Property `accreditation_score`. -/
def accreditation_score (i : BaseInstitution) : ℚ := i._accreditation_score

/-- Property `student_population` (`int(...)` is the identity here). -/
def student_population (i : BaseInstitution) : ℤ := i._student_population

/-- `offers_course`: `kw = course_keyword.strip().lower()`;
`any(kw in c.lower() for c in self._courses)`. -/
def offers_course (i : BaseInstitution) (course_keyword : String) : Bool :=
  let kw := pyLower (pyStrip course_keyword)
  i._courses.any (fun c => pyIn kw (pyLower c))

/-- The affordability term of `rank_score`
(line 72: `aff = 1.0 / (1.0 + (self.tuition_avg / 1_000_000.0))`). -/
def affordability (tuition : ℚ) : ℚ := 1 / (1 + tuition / 1000000)

/-- `rank_score` (lines 65–76). -/
def rank_score (i : BaseInstitution) : ℚ :=
  let w := base_rank_weights i.category
  let acc := max 0 (min 1 (i.accreditation_score / 100))
  let aff := affordability i.tuition_avg
  let size := min 1 ((i.student_population : ℚ) / 30000)
  w.1 * acc + w.2.1 * aff + w.2.2 * size

/-- `line` (lines 79–82). Rendering helpers appear further below. -/
def line (i : BaseInstitution) : String :=
  i.name ++ " [" ++ pyTitle (category_label i.category) ++ " | " ++ pyTitle i.ownership
    ++ " | " ++ i.lga ++ "] Accr " ++ fmtFixed0 i.accreditation_score
    ++ "/100 • Tuition ₦" ++ fmtComma0 i.tuition_avg ++ " • Students "
    ++ fmtCommaInt i.student_population

end BaseInstitution

/-! ## Directory engine

`InstitutionDirectory` holds the list `self._inst`; every method is a pure
function of that list and its arguments, so the methods are embedded as
functions taking the institution list. -/

namespace InstitutionDirectory

open BaseInstitution

/-- One narrowing step of `filter` for a string-valued criterion: Python's
`if crit:` guard is true exactly when the optional argument is present and
non-empty, in which case the working set is narrowed by the predicate. -/
def applyStrCriterion (crit : Option String) (test : String → BaseInstitution → Bool)
    (res : List BaseInstitution) : List BaseInstitution :=
  match crit with
  | some s => if s ≠ "" then res.filter (test s) else res
  | none => res

/-- One narrowing step of `filter` for a numeric criterion: Python's
`if crit is not None:` guard. -/
def applyNumCriterion (crit : Option ℚ) (test : ℚ → BaseInstitution → Bool)
    (res : List BaseInstitution) : List BaseInstitution :=
  match crit with
  | some m => res.filter (test m)
  | none => res

/-- Line 158: `i.category == c` with `c = category.lower()`. -/
def catTest (s : String) (i : BaseInstitution) : Bool :=
  category_label i.category == pyLower s

/-- Line 161: `i.ownership == ow` with `ow = ownership.lower()`. -/
def ownTest (s : String) (i : BaseInstitution) : Bool :=
  i.ownership == pyLower s

/-- Line 164: `i.lga.lower() == lg` with `lg = lga.lower()`. -/
def lgaTest (s : String) (i : BaseInstitution) : Bool :=
  pyLower i.lga == pyLower s

/-- Line 166: `i.offers_course(course_keyword)`. -/
def courseTest (s : String) (i : BaseInstitution) : Bool :=
  i.offers_course s

/-- Line 168: `i.accreditation_score >= float(min_accreditation)`. -/
def minAccTest (m : ℚ) (i : BaseInstitution) : Bool :=
  decide (i.accreditation_score ≥ m)

/-- Line 170: `i.tuition_avg <= float(max_tuition)`. -/
def maxTuiTest (m : ℚ) (i : BaseInstitution) : Bool :=
  decide (i.tuition_avg ≤ m)

/-- `filter` (lines 146–171): sequentially narrows the working set by each
present criterion; generator stages collapse to list filters. Every
argument defaults to `None` in the source. -/
def filter (inst : List BaseInstitution)
    (category ownership lga course_keyword : Option String)
    (min_accreditation max_tuition : Option ℚ) : List BaseInstitution :=
  let res := inst
  let res := applyStrCriterion category catTest res
  let res := applyStrCriterion ownership ownTest res
  let res := applyStrCriterion lga lgaTest res
  let res := applyStrCriterion course_keyword courseTest res
  let res := applyNumCriterion min_accreditation minAccTest res
  let res := applyNumCriterion max_tuition maxTuiTest res
  res

/-- The five recognised sort keys. -/
inductive SortKey where
  | rank
  | tuition
  | accreditation
  | name
  | population
deriving DecidableEq, Repr

/-- The key-function dictionary lookup of `sort` (lines 179–185):
`{...}.get(by, lambda x: x.rank_score())` — an unknown key name falls back
to the rank-score key. -/
def keyOf (by_ : String) : SortKey :=
  if by_ = "rank" then .rank
  else if by_ = "tuition" then .tuition
  else if by_ = "accreditation" then .accreditation
  else if by_ = "name" then .name
  else if by_ = "population" then .population
  else .rank

/-- Non-strict comparison of the selected key values, as Python compares the
results of the chosen `keyf` (`x.name.lower()` for the name key; string
`le` is the negation of the reverse `lt`). -/
def keyLe : SortKey → BaseInstitution → BaseInstitution → Bool
  | .rank, a, b => decide (rank_score a ≤ rank_score b)
  | .tuition, a, b => decide (a.tuition_avg ≤ b.tuition_avg)
  | .accreditation, a, b => decide (a.accreditation_score ≤ b.accreditation_score)
  | .name, a, b => !pyLt (pyLower b.name) (pyLower a.name)
  | .population, a, b => decide (a.student_population ≤ b.student_population)

/-- Equality of the selected key values of two institutions. -/
def keyEq (k : SortKey) (a b : BaseInstitution) : Bool :=
  keyLe k a b && keyLe k b a

/-- Stable insertion: `a` is placed before the first element it may precede.
`before x y = true` means `x` may be placed before `y` (non-strict, so that
an earlier-input element stays before equal later ones). -/
def insertStable (before : BaseInstitution → BaseInstitution → Bool)
    (a : BaseInstitution) : List BaseInstitution → List BaseInstitution
  | [] => [a]
  | b :: bs => if before a b then a :: b :: bs else b :: insertStable before a bs

/-- Stable insertion sort; with a total non-strict `before` this is the
unique stable sort, hence the meaning of Python `sorted`. -/
def stableSort (before : BaseInstitution → BaseInstitution → Bool) :
    List BaseInstitution → List BaseInstitution
  | [] => []
  | x :: t => insertStable before x (stableSort before t)

/-- `sort` (lines 173–186): `sorted(institutions, key=keyf, reverse=descending)`.
In the source `by` defaults to `"rank"` and `descending` to `True`. -/
def sort (institutions : List BaseInstitution) (by_ : String) (descending : Bool) :
    List BaseInstitution :=
  let k := keyOf by_
  stableSort (fun a b => if descending then keyLe k b a else keyLe k a b) institutions

/-- `top_n` (lines 188–189): `institutions[:max(0, n)]`.
In the source `n` defaults to `5`. -/
def top_n (institutions : List BaseInstitution) (n : ℤ) : List BaseInstitution :=
  institutions.take (max 0 n).toNat

/-- `summarize` (lines 191–197). -/
def summarize (institutions : List BaseInstitution) : String :=
  if institutions = [] then "No institutions matched your criteria."
  else String.intercalate "\n"
    ((List.enumFrom 1 institutions).map
      (fun p => padIndex2 p.1 ++ ". " ++ line p.2 ++ " • RankScore " ++ fmtFixed3 (rank_score p.2)))

/-- The per-criterion predicate corresponding to one narrowing step of
`filter` with a string-valued criterion: holds of an institution when the
criterion is absent, blank, or satisfied. -/
def strCritPred (crit : Option String) (test : String → BaseInstitution → Bool)
    (i : BaseInstitution) : Bool :=
  match crit with
  | some s => if s ≠ "" then test s i else true
  | none => true

/-- The per-criterion predicate corresponding to one narrowing step of
`filter` with a numeric criterion. -/
def numCritPred (crit : Option ℚ) (test : ℚ → BaseInstitution → Bool)
    (i : BaseInstitution) : Bool :=
  match crit with
  | some m => test m i
  | none => true

/-- One single-criterion `filter` call, as an explicit datum — used to state
that composing single-criterion filters is order-insensitive. -/
inductive Criterion where
  | cat (s : String)
  | own (s : String)
  | region (s : String)
  | course (s : String)
  | minAcc (m : ℚ)
  | maxTui (m : ℚ)
deriving DecidableEq

/-- Apply one single-criterion `filter` call. -/
def applyCrit : Criterion → List BaseInstitution → List BaseInstitution
  | .cat s, l => filter l (some s) none none none none none
  | .own s, l => filter l none (some s) none none none none
  | .region s, l => filter l none none (some s) none none none
  | .course s, l => filter l none none none (some s) none none
  | .minAcc m, l => filter l none none none none (some m) none
  | .maxTui m, l => filter l none none none none none (some m)

/-- The predicate tested by one single-criterion `filter` call. -/
def critPred : Criterion → BaseInstitution → Bool
  | .cat s, i => strCritPred (some s) catTest i
  | .own s, i => strCritPred (some s) ownTest i
  | .region s, i => strCritPred (some s) lgaTest i
  | .course s, i => strCritPred (some s) courseTest i
  | .minAcc m, i => numCritPred (some m) minAccTest i
  | .maxTui m, i => numCritPred (some m) maxTuiTest i

/-- Compose a sequence of single-criterion `filter` calls, left to right. -/
def applyAll (cs : List Criterion) (l : List BaseInstitution) : List BaseInstitution :=
  cs.foldl (fun acc c => applyCrit c acc) l

end InstitutionDirectory

/-! ## Specification-side definitions and concrete data -/

/-- The ranking-weight table exactly as the specification states it
(§4.1): rows university, polytechnic, college with columns
`(w_acc, w_aff, w_size)`. -/
def spec_weight_table : Category → ℚ × ℚ × ℚ
  | .university => (0.60, 0.20, 0.20)
  | .polytechnic => (0.45, 0.35, 0.20)
  | .college => (0.50, 0.40, 0.10)

/-- Concrete institutions used to instantiate the theorems. -/
def sampleUniversity : BaseInstitution :=
  ⟨"University of Lagos", "Federal", "Yaba", ["Computer Science", "Law"],
    250000, 90, 40000, .university⟩

def samplePolytechnic : BaseInstitution :=
  ⟨"Lagos State Polytechnic", "State", "Ikorodu", ["Accountancy"],
    180000, 70, 15000, .polytechnic⟩

def sampleCollege : BaseInstitution :=
  ⟨"Adeniran Ogunsanya College of Education", "State", "Oto-Awori", ["Education"],
    90000, 50, 5000, .college⟩

def sampleLaw : BaseInstitution :=
  ⟨"Lagos Law College", "State", "Ojo", ["Law"], 300000, 50, 2000, .college⟩

/-- An institution whose course list is empty. -/
def noCourseInst : BaseInstitution :=
  ⟨"Ghost Institute", "State", "Ojo", [], 100000, 50, 1000, .university⟩

/-- Selects the institutions whose accreditation score is exactly 50 —
an equal-key group for the accreditation sort key. -/
def accrEq50 (i : BaseInstitution) : Bool :=
  decide (i.accreditation_score = 50)

/-! ## Helper lemmas -/

open BaseInstitution InstitutionDirectory

/-- A convex combination of three values from `[0, 1]` lies in `[0, 1]`. -/
theorem combo_bounds (w1 w2 w3 a f s : ℚ) (hw1 : 0 ≤ w1) (hw2 : 0 ≤ w2) (hw3 : 0 ≤ w3)
    (hsum : w1 + w2 + w3 = 1) (ha0 : 0 ≤ a) (ha1 : a ≤ 1) (hf0 : 0 ≤ f) (hf1 : f ≤ 1)
    (hs0 : 0 ≤ s) (hs1 : s ≤ 1) :
    0 ≤ w1 * a + w2 * f + w3 * s ∧ w1 * a + w2 * f + w3 * s ≤ 1 := by
  constructor
  · have := mul_nonneg hw1 ha0
    have := mul_nonneg hw2 hf0
    have := mul_nonneg hw3 hs0
    linarith
  · have h1 : w1 * a ≤ w1 := by nlinarith
    have h2 : w2 * f ≤ w2 := by nlinarith
    have h3 : w3 * s ≤ w3 := by nlinarith
    linarith

/-- The three category weights are non-negative and sum to `1`. -/
theorem base_rank_weights_nonneg_sum (c : Category) :
    0 ≤ (base_rank_weights c).1 ∧ 0 ≤ (base_rank_weights c).2.1
      ∧ 0 ≤ (base_rank_weights c).2.2
      ∧ (base_rank_weights c).1 + (base_rank_weights c).2.1 + (base_rank_weights c).2.2 = 1 := by
  cases c <;> norm_num [base_rank_weights]

/-- The empty character list is a substring of every character list. -/
theorem inChars_nil (l : List Char) : inChars [] l = true := by
  cases l <;> simp [inChars, prefixChars]

/-- A string narrowing step of `filter` is a list filter by its predicate. -/
theorem applyStrCriterion_eq_filter (crit : Option String)
    (test : String → BaseInstitution → Bool) (res : List BaseInstitution) :
    applyStrCriterion crit test res = res.filter (strCritPred crit test) := by
  rcases crit with _ | s
  · rw [show strCritPred none test = fun _ => true from rfl, List.filter_true,
      applyStrCriterion]
  · by_cases hs : s = ""
    · subst hs
      rw [show strCritPred (some "") test = fun _ => true from rfl, List.filter_true]
      simp [applyStrCriterion]
    · rw [applyStrCriterion, if_pos hs]
      exact List.filter_congr fun x _ => by simp [strCritPred, hs]

/-- A numeric narrowing step of `filter` is a list filter by its predicate. -/
theorem applyNumCriterion_eq_filter (crit : Option ℚ)
    (test : ℚ → BaseInstitution → Bool) (res : List BaseInstitution) :
    applyNumCriterion crit test res = res.filter (numCritPred crit test) := by
  rcases crit with _ | m
  · rw [show numCritPred none test = fun _ => true from rfl, List.filter_true,
      applyNumCriterion]
  · rw [applyNumCriterion]
    exact List.filter_congr fun x _ => by simp [numCritPred]

/-- `filter` equals one list filter by the conjunction of the six
per-criterion predicates. -/
theorem filter_eq_conj (inst : List BaseInstitution) (c o l k : Option String)
    (mn mx : Option ℚ) :
    filter inst c o l k mn mx = inst.filter (fun i =>
      strCritPred c catTest i && strCritPred o ownTest i && strCritPred l lgaTest i
        && strCritPred k courseTest i && numCritPred mn minAccTest i
        && numCritPred mx maxTuiTest i) := by
  simp only [filter, applyStrCriterion_eq_filter, applyNumCriterion_eq_filter,
    List.filter_filter]
  apply List.filter_congr
  intro x _
  dsimp only
  cases h1 : strCritPred c catTest x <;> cases h2 : strCritPred o ownTest x <;>
    cases h3 : strCritPred l lgaTest x <;> cases h4 : strCritPred k courseTest x <;>
    cases h5 : numCritPred mn minAccTest x <;> cases h6 : numCritPred mx maxTuiTest x <;> rfl

/-- A single-criterion `filter` call is a list filter by the criterion's
predicate. -/
theorem applyCrit_eq_filter (c : Criterion) (l : List BaseInstitution) :
    applyCrit c l = l.filter (critPred c) := by
  cases c <;>
    (rw [applyCrit, filter_eq_conj]
     exact List.filter_congr fun x _ => by simp [critPred, strCritPred, numCritPred])

/-- A composition of single-criterion `filter` calls is a list filter by
the conjunction of all their predicates. -/
theorem applyAll_eq_filter (cs : List Criterion) :
    ∀ l : List BaseInstitution,
      applyAll cs l = l.filter (fun i => cs.all (fun c => critPred c i)) := by
  induction cs with
  | nil =>
    intro l
    rw [show (fun i => List.all [] (fun c => critPred c i)) = fun _ => true from rfl,
      List.filter_true]
    rfl
  | cons c cs ih =>
    intro l
    have h0 : applyAll (c :: cs) l = applyAll cs (applyCrit c l) := rfl
    rw [h0, ih, applyCrit_eq_filter, List.filter_filter]
    apply List.filter_congr
    intro x _
    dsimp only
    rw [List.all_cons, Bool.and_comm]

/-- `List.all` is invariant under permutation of the list. -/
theorem perm_all_eq {cs csp : List Criterion} (h : cs.Perm csp) (f : Criterion → Bool) :
    cs.all f = csp.all f := by
  have key : ∀ x y : Bool, (x = true ↔ y = true) → x = y := by decide
  apply key
  simp only [List.all_eq_true]
  constructor
  · intro hh c hc
    exact hh c (h.mem_iff.mpr hc)
  · intro hh c hc
    exact hh c (h.mem_iff.mp hc)

/-- Inserting an element that satisfies `p` before everything it may not
precede: the `p`-filtered result gains `a` at the front. -/
theorem filter_insertStable_pos (before : BaseInstitution → BaseInstitution → Bool)
    (p : BaseInstitution → Bool) (a : BaseInstitution) (h1 : p a = true)
    (h2 : ∀ b, before a b = false → p b = false) :
    ∀ m : List BaseInstitution, (insertStable before a m).filter p = a :: m.filter p := by
  intro m
  induction m with
  | nil => simp [insertStable, h1]
  | cons b bs ih =>
    cases hb : before a b
    · have hpb : p b = false := h2 b hb
      simp [insertStable, hb, hpb, ih]
    · simp [insertStable, hb, h1]

/-- Inserting an element that fails `p` leaves the `p`-filtered result
unchanged. -/
theorem filter_insertStable_neg (before : BaseInstitution → BaseInstitution → Bool)
    (p : BaseInstitution → Bool) (a : BaseInstitution) (h1 : p a = false) :
    ∀ m : List BaseInstitution, (insertStable before a m).filter p = m.filter p := by
  intro m
  induction m with
  | nil => simp [insertStable, h1]
  | cons b bs ih =>
    cases hb : before a b
    · cases hpb : p b <;> simp [insertStable, hb, h1, ih, List.filter_cons, hpb]
    · simp [insertStable, hb, h1]

/-- Stability of the stable insertion sort: if any two elements of an
equal-key group (given by `p`) may precede one another, the sorted list
restricted to that group is the input list restricted to that group. -/
theorem stableSort_filter (before : BaseInstitution → BaseInstitution → Bool)
    (p : BaseInstitution → Bool)
    (h : ∀ a b, p a = true → p b = true → before a b = true) :
    ∀ l : List BaseInstitution, (stableSort before l).filter p = l.filter p := by
  intro l
  induction l with
  | nil => rfl
  | cons x t ih =>
    cases hx : p x
    · rw [show stableSort before (x :: t) = insertStable before x (stableSort before t)
        from rfl]
      rw [filter_insertStable_neg before p x hx, ih]
      simp [List.filter_cons, hx]
    · have h2 : ∀ b, before x b = false → p b = false := by
        intro b hb
        cases hpb : p b
        · rfl
        · exact absurd (h x b hx hpb) (by simp [hb])
      rw [show stableSort before (x :: t) = insertStable before x (stableSort before t)
        from rfl]
      rw [filter_insertStable_pos before p x hx h2, ih]
      simp [List.filter_cons, hx]

/-! ## Claims -/

/-- Claim C1: for every institution whose `tuition_avg` is non-negative and
whose `student_population` is non-negative (accreditation score
unrestricted), `rank_score()` returns a value in the closed interval
`[0, 1]`. -/
theorem rank_score_mem_unit_interval (i : BaseInstitution)
    (ht : 0 ≤ i.tuition_avg) (hp : 0 ≤ i.student_population) :
    0 ≤ rank_score i ∧ rank_score i ≤ 1 := by
  have hpq : (0 : ℚ) ≤ (i.student_population : ℚ) := by exact_mod_cast hp
  have htd : (0 : ℚ) ≤ i.tuition_avg / 1000000 := div_nonneg ht (by norm_num)
  have hden : (0 : ℚ) < 1 + i.tuition_avg / 1000000 := by linarith
  have hw := base_rank_weights_nonneg_sum i.category
  simp only [rank_score, affordability]
  exact combo_bounds _ _ _ _ _ _ hw.1 hw.2.1 hw.2.2.1 hw.2.2.2
    (le_max_left _ _) (max_le (by norm_num) (min_le_left _ _))
    (le_of_lt (one_div_pos.mpr hden)) (by rw [div_le_one hden]; linarith)
    (le_min (by norm_num) (div_nonneg hpq (by norm_num))) (min_le_left _ _)

/-- Witness for C1 at a concrete institution. -/
theorem rank_score_mem_unit_interval_witness :
    0 ≤ rank_score sampleUniversity ∧ rank_score sampleUniversity ≤ 1 :=
  rank_score_mem_unit_interval sampleUniversity (by decide) (by decide)

/-- Claim C2, counterexample: the claim says `offers_course("")` is true for
every institution, including one whose course list is empty; on an
institution with no courses the generator `any(...)` is vacuously false. -/
theorem offers_course_empty_keyword_cex :
    ¬ (∀ i : BaseInstitution, offers_course i "" = true) :=
  fun h => absurd (h noCourseInst) (by decide)

/-- Claim C2, amended: `offers_course("")` returns true for every institution
whose course list is non-empty; for an institution with an empty course
list it returns false (no course for the empty keyword to be a substring
of). -/
theorem offers_course_empty_keyword_of_ne_nil (i : BaseInstitution)
    (h : i.courses ≠ []) : offers_course i "" = true := by
  rcases hc : i._courses with _ | ⟨c, cs⟩
  · exact absurd hc h
  · have e : pyLower (pyStrip "") = "" := rfl
    have ed : ("" : String).data = ([] : List Char) := rfl
    simp only [offers_course, hc, List.any_cons, e, pyIn, ed, inChars_nil,
      Bool.true_or]

/-- Witness for the amended C2 at a concrete institution with one course. -/
theorem offers_course_empty_keyword_witness :
    offers_course sampleLaw "" = true :=
  offers_course_empty_keyword_of_ne_nil sampleLaw (by decide)

/-- Claim C3: `sort(collection, key, descending)` is stable for both values
of the `descending` flag — restricting the output to any group of
pairwise-equal-key elements (`p` selects the group; the hypothesis states
the group's keys are pairwise equal) yields those elements in input
order. -/
theorem sort_stable (l : List BaseInstitution) (by_ : String) (descending : Bool)
    (p : BaseInstitution → Bool)
    (h : ∀ a b, p a = true → p b = true → keyEq (keyOf by_) a b = true) :
    (sort l by_ descending).filter p = l.filter p := by
  simp only [sort]
  apply stableSort_filter
  intro a b ha hb
  have hab := h a b ha hb
  rw [keyEq, Bool.and_eq_true] at hab
  cases descending <;> simp [hab.1, hab.2]

/-- Witness for C3: two institutions with equal accreditation scores keep
their input order under a descending accreditation sort. -/
theorem sort_stable_witness :
    (sort [sampleCollege, sampleLaw] "accreditation" true).filter accrEq50
      = [sampleCollege, sampleLaw].filter accrEq50 :=
  sort_stable [sampleCollege, sampleLaw] "accreditation" true accrEq50
    (by
      intro a b ha hb
      have ha2 : a.accreditation_score = 50 := of_decide_eq_true ha
      have hb2 : b.accreditation_score = 50 := of_decide_eq_true hb
      have hk : keyOf "accreditation" = SortKey.accreditation := by decide
      rw [hk, keyEq]
      simp [keyLe, ha2, hb2])

/-- Claim C4: `filter` with several criteria is the logical AND of the
individual criterion predicates; composing single-criterion filters is
order-insensitive; and filtering by a (non-blank) category returns only
institutions whose category label equals it case-insensitively. -/
theorem filter_conj_of_predicates (inst : List BaseInstitution)
    (c o l k : Option String) (mn mx : Option ℚ) (s : String)
    (cs csp : List Criterion) (hs : s ≠ "") (hperm : cs.Perm csp) :
    filter inst c o l k mn mx
      = inst.filter (fun i =>
          strCritPred c catTest i && strCritPred o ownTest i && strCritPred l lgaTest i
            && strCritPred k courseTest i && numCritPred mn minAccTest i
            && numCritPred mx maxTuiTest i)
    ∧ applyAll cs inst = applyAll csp inst
    ∧ (filter inst (some s) none none none none none).all
        (fun i => category_label i.category == pyLower s) = true := by
  refine ⟨filter_eq_conj inst c o l k mn mx, ?_, ?_⟩
  · rw [applyAll_eq_filter, applyAll_eq_filter]
    apply List.filter_congr
    intro x _
    dsimp only
    exact perm_all_eq hperm _
  · rw [filter_eq_conj, List.all_eq_true]
    intro x hx
    rw [List.mem_filter] at hx
    have h2 := hx.2
    simp only [strCritPred, numCritPred, if_pos hs, Bool.and_true] at h2
    simpa [catTest] using h2

/-- Witness for C4 at a concrete directory, criteria, and a transposed pair
of single-criterion filters. -/
theorem filter_conj_of_predicates_witness :
    (filter [sampleUniversity, sampleLaw] (some "university") (some "state")
        none none none none
      = [sampleUniversity, sampleLaw].filter (fun i =>
          strCritPred (some "university") catTest i
            && strCritPred (some "state") ownTest i && strCritPred none lgaTest i
            && strCritPred none courseTest i && numCritPred none minAccTest i
            && numCritPred none maxTuiTest i))
    ∧ applyAll [Criterion.cat "university", Criterion.own "state"]
          [sampleUniversity, sampleLaw]
        = applyAll [Criterion.own "state", Criterion.cat "university"]
          [sampleUniversity, sampleLaw]
    ∧ (filter [sampleUniversity, sampleLaw] (some "university")
          none none none none none).all
        (fun i => category_label i.category == pyLower "university") = true :=
  filter_conj_of_predicates [sampleUniversity, sampleLaw] (some "university")
    (some "state") none none none none "university"
    [Criterion.cat "university", Criterion.own "state"]
    [Criterion.own "state", Criterion.cat "university"] (by decide) (by decide)

/-- Claim C5: `top_n(xs, n)` returns exactly the first `min(n, len(xs))`
elements of `xs`: the empty list for `n ≤ 0`, all of `xs` when
`len(xs) ≤ n`, and it is total (no error) for every integer `n`. -/
theorem top_n_spec (l : List BaseInstitution) (n : ℤ) :
    top_n l n = l.take n.toNat
    ∧ (n ≤ 0 → top_n l n = [])
    ∧ ((l.length : ℤ) ≤ n → top_n l n = l)
    ∧ (top_n l n).length = min n.toNat l.length := by
  have hmax : (max 0 n).toNat = n.toNat := by omega
  refine ⟨by rw [top_n, hmax], fun h => ?_, fun h => ?_, ?_⟩
  · rw [top_n, hmax, show n.toNat = 0 by omega, List.take_zero]
  · rw [top_n, hmax]
    exact List.take_of_length_le (by omega)
  · rw [top_n, hmax]
    exact List.length_take _ _

/-- Witness for C5 at a concrete list and cutoff. -/
theorem top_n_spec_witness :
    top_n [sampleUniversity, samplePolytechnic] 1
      = [sampleUniversity, samplePolytechnic].take (Int.toNat 1) :=
  (top_n_spec [sampleUniversity, samplePolytechnic] 1).1

/-- Claim C6: an unknown sort key falls back to the composite rank score —
`sort` with any key name outside the five recognised ones returns the same
result as sorting by `"rank"`, without error. -/
theorem sort_unknown_key_fallback (l : List BaseInstitution) (descending : Bool)
    (by_ : String)
    (h : by_ ∉ (["rank", "tuition", "accreditation", "name", "population"] :
      List String)) :
    sort l by_ descending = sort l "rank" descending := by
  simp only [List.mem_cons, List.not_mem_nil, or_false, not_or] at h
  obtain ⟨h1, h2, h3, h4, h5⟩ := h
  have hk : keyOf by_ = SortKey.rank := by
    rw [keyOf, if_neg h1, if_neg h2, if_neg h3, if_neg h4, if_neg h5]
  have hr : keyOf "rank" = SortKey.rank := by decide
  simp only [sort, hk, hr]

/-- Witness for C6 at a concrete unrecognised key name. -/
theorem sort_unknown_key_fallback_witness :
    sort [sampleUniversity, sampleLaw] "composite" true
      = sort [sampleUniversity, sampleLaw] "rank" true :=
  sort_unknown_key_fallback [sampleUniversity, sampleLaw] true "composite" (by decide)

/-- Claim C7: for every institution, the weight triple returned for its
category is exactly the specification's table value, and the three weights
sum to `1`. -/
theorem base_rank_weights_match_table (i : BaseInstitution) :
    base_rank_weights i.category = spec_weight_table i.category
    ∧ (base_rank_weights i.category).1 + (base_rank_weights i.category).2.1
        + (base_rank_weights i.category).2.2 = 1 := by
  obtain ⟨_, _, _, _, _, _, _, c⟩ := i
  cases c <;> exact ⟨rfl, by norm_num [base_rank_weights]⟩

/-- Claim C8: the affordability term `1 / (1 + tuition / 1_000_000)` of
`rank_score` has a non-zero denominator for non-negative tuition, is
strictly decreasing in tuition, equals `1` at zero tuition, and always
lies in `[0, 1]`. -/
theorem affordability_term_spec (t u : ℚ) (ht : 0 ≤ t) (htu : t < u) :
    1 + t / 1000000 ≠ 0
    ∧ affordability u < affordability t
    ∧ affordability 0 = 1
    ∧ affordability t ≤ 1
    ∧ 0 ≤ affordability t := by
  have htd : (0 : ℚ) ≤ t / 1000000 := div_nonneg ht (by norm_num)
  have hstep : t / 1000000 < u / 1000000 := by
    exact (div_lt_div_iff_of_pos_right (by norm_num : (0 : ℚ) < 1000000)).mpr htu
  have hden : (0 : ℚ) < 1 + t / 1000000 := by linarith
  have hdenu : (0 : ℚ) < 1 + u / 1000000 := by linarith
  refine ⟨ne_of_gt hden, ?_, ?_, ?_, ?_⟩
  · rw [affordability, affordability]
    exact one_div_lt_one_div_of_lt hden (by linarith)
  · rw [affordability]
    norm_num
  · rw [affordability, div_le_one hden]
    linarith
  · rw [affordability]
    exact le_of_lt (one_div_pos.mpr hden)

/-- Witness for C8 at concrete tuition values. -/
theorem affordability_term_spec_witness :
    1 + (0 : ℚ) / 1000000 ≠ 0
    ∧ affordability 2000000 < affordability 0
    ∧ affordability 0 = 1
    ∧ affordability 0 ≤ 1
    ∧ 0 ≤ affordability 0 :=
  affordability_term_spec 0 2000000 (by norm_num) (by norm_num)

/-- Claim C9: `summarize` of the empty list is the literal no-results
message — the empty result set is rendered, not treated as an error. -/
theorem summarize_empty :
    summarize ([] : List BaseInstitution) = "No institutions matched your criteria." :=
  rfl

/-- Claim C10 (implicit): a blank string for any of the four string criteria
of `filter` is treated exactly like an absent criterion; in particular a
blank `course_keyword` returns the whole collection in order — its stage is
skipped before `offers_course` is ever consulted, so institutions with an
empty course list are included too. -/
theorem filter_blank_string_criterion (inst : List BaseInstitution)
    (c o l k : Option String) (mn mx : Option ℚ) :
    filter inst (some "") o l k mn mx = filter inst none o l k mn mx
    ∧ filter inst c (some "") l k mn mx = filter inst c none l k mn mx
    ∧ filter inst c o (some "") k mn mx = filter inst c o none k mn mx
    ∧ filter inst c o l (some "") mn mx = filter inst c o l none mn mx
    ∧ filter inst none none none (some "") none none = inst := by
  have e : ∀ test, applyStrCriterion (some "") test = applyStrCriterion none test := by
    intro test
    funext res
    rw [applyStrCriterion, applyStrCriterion, if_neg (by simp)]
  refine ⟨?_, ?_, ?_, ?_, ?_⟩ <;> (simp only [filter, e]; try rfl)

end LagosDirectory
